import Mathlib

/-!
Verification of the rusty-bvg departure-board core: the normalization
pipeline of `src/api.rs` (`fetch_departures`, `clean_destination`), the
text-layout helper of `src/display.rs` (`smart_wrap`, `next_departure`,
`render_departures`) and the scheduler loop of `src/main.rs` (refresh,
rotate and render transitions).

Rust strings are modelled as `List Char`; `str::len` (a byte count) is
`byteLen`, the sum of the UTF-8 sizes of the characters.  Rust panics are
modelled as `none`: in particular `String::truncate`, which panics when the
new length is not a character boundary, is `rustTruncate`.
-/

namespace RustyBvg

/-- UTF-8 byte length of a string modelled as a list of characters
(Rust `str::len`). -/
def byteLen (s : List Char) : Nat := (s.map Char.utf8Size).sum

/-- The prefix of `s` occupying exactly `n` UTF-8 bytes, or `none` when `n`
does not land on a character boundary of `s` (or exceeds its length). -/
def byteSplitAt : Nat → List Char → Option (List Char)
  | 0, _ => some []
  | _ + 1, [] => none
  | n + 1, c :: rest =>
    if c.utf8Size ≤ n + 1 then
      (byteSplitAt (n + 1 - c.utf8Size) rest).map (fun t => c :: t)
    else
      none

/-- Rust `String::truncate`: keep the first `newLen` bytes; a no-op when
`newLen` is at least the current length; panic (`none`) when `newLen` is
not a character boundary. -/
def rustTruncate (s : List Char) (newLen : Nat) : Option (List Char) :=
  if byteLen s ≤ newLen then some s else byteSplitAt newLen s

/-- Substring containment, Rust `str::contains` with a literal pattern. -/
def containsSub (needle : List Char) : List Char → Bool
  | [] => needle.isPrefixOf []
  | c :: rest => needle.isPrefixOf (c :: rest) || containsSub needle rest

/-- The scan loop of `clean_destination` (src/api.rs lines 190-211): push
each character onto `buffer`; after every push, stop at the first matching
suffix — `" (Berlin)"` (9 bytes), `" Bhf"` (4 bytes), or a ring glyph
`" ⟲"`/`" ⟳"` — truncating the buffer by the byte counts the source uses
(9, 4 and 2 respectively).  `none` models the `String::truncate` panic. -/
def cleanLoop : List Char → List Char → Option (List Char)
  | [], buffer => some buffer
  | ch :: rest, buffer0 =>
    let buffer := buffer0 ++ [ch]
    if (" (Berlin)".toList).isSuffixOf buffer then
      rustTruncate buffer (byteLen buffer - 9)
    else if (" Bhf".toList).isSuffixOf buffer then
      rustTruncate buffer (byteLen buffer - 4)
    else if (" ⟲".toList).isSuffixOf buffer || (" ⟳".toList).isSuffixOf buffer then
      rustTruncate buffer (byteLen buffer - 2)
    else
      cleanLoop rest buffer

/-- `clean_destination` (src/api.rs lines 171-216): drop a leading `"S "`
or `"U "` marker; when the `S`/`U` is not followed by a space it is kept;
then run the single-pass suffix scan on the remainder.  `none` models a
panic inside the scan. -/
def cleanDestination (dest : List Char) : Option (List Char) :=
  match dest with
  | [] => some []
  | c :: rest =>
    if c = 'S' ∨ c = 'U' then
      match rest with
      | ' ' :: rest2 => cleanLoop rest2 []
      | _ => (cleanLoop rest []).map (fun b => c :: b)
    else
      cleanLoop dest []

/-- `Departure` (src/departure.rs lines 2-7). -/
structure Departure where
  line : List Char
  destination : List Char
  minutes : Nat
deriving DecidableEq, Repr

/-- `ApiDeparture` (src/api.rs lines 15-28), the raw provider entry:
`line.name` flattened to `lineName`; `direction` and `when` may be null;
`delay` is reserved and unused. -/
structure RawEntry where
  lineName : List Char
  direction : Option (List Char)
  when : Option (List Char)
  delay : Option Int
deriving DecidableEq, Repr

/-- The mode filter of `fetch_departures` (src/api.rs lines 107-116).
Rust `char::is_numeric` is modelled as `Char.isDigit`; provider line codes
are ASCII, where the two agree. -/
def lineFiltered (name : List Char) : Bool :=
  ("RE".toList).isPrefixOf name ||
  ("RB".toList).isPrefixOf name ||
  ("IC".toList).isPrefixOf name ||
  ("EC".toList).isPrefixOf name ||
  ("EN".toList).isPrefixOf name ||
  ("FEX".toList).isPrefixOf name ||
  ("ICE".toList).isPrefixOf name ||
  name == "S41".toList ||
  name == "S42".toList ||
  name.all (fun c => c.isDigit)

/-- Processing of one raw entry inside `fetch_departures` (src/api.rs
lines 81-151).  `parse` stands for chrono's RFC-3339 parser (an external
crate), yielding a timestamp in seconds since some epoch; `now` is in the
same unit, and `diff.num_minutes()` is truncating division by 60
(`Int.tdiv`).  Result: `none` models a panic, `some none` a silently
dropped entry, `some (some d)` a kept departure. -/
def processEntry (parse : List Char → Option Int) (now : Int) (e : RawEntry) :
    Option (Option Departure) :=
  match e.direction with
  | none => some none
  | some direction =>
    if containsSub ("Warschauer".toList) direction then some none
    else
      match e.when with
      | none => some none
      | some w =>
        if lineFiltered e.lineName then some none
        else
          match parse w with
          | none => some none
          | some t =>
            if 1 ≤ Int.tdiv (t - now) 60 ∧ Int.tdiv (t - now) 60 ≤ 15 then
              (cleanDestination direction).map
                (fun dst => some ⟨e.lineName, dst, (Int.tdiv (t - now) 60).toNat⟩)
            else some none

/-- The entry loop of `fetch_departures` (src/api.rs lines 81-151): each
entry is processed independently; a panic (`none`) aborts the run. -/
def processAll (parse : List Char → Option Int) (now : Int) :
    List RawEntry → Option (List Departure)
  | [] => some []
  | e :: rest =>
    match processEntry parse now e with
    | none => none
    | some none => processAll parse now rest
    | some (some d) => (processAll parse now rest).map (fun l => d :: l)

/-- Insert a departure after every element with a strictly smaller
`minutes` key and before the first element with an equal or larger key. -/
def insertByMinutes (d : Departure) : List Departure → List Departure
  | [] => [d]
  | x :: xs => if x.minutes < d.minutes then x :: insertByMinutes d xs else d :: x :: xs

/-- `departures.sort_by_key(|d| d.minutes)` (src/api.rs line 154).  Rust's
`sort_by_key` is stable; `sortByMinutes` is a stable insertion sort, which
agrees with it extensionally (a stable sort by a fixed key is unique). -/
def sortByMinutes : List Departure → List Departure
  | [] => []
  | d :: rest => insertByMinutes d (sortByMinutes rest)

/-- The pure core of `fetch_departures` (src/api.rs lines 74-167), from the
decoded raw entries to the sorted departure list.  `none` models a panic
while processing some entry. -/
def fetchProcess (parse : List Char → Option Int) (now : Int)
    (entries : List RawEntry) : Option (List Departure) :=
  (processAll parse now entries).map sortByMinutes

/-- Rust `str::split_whitespace`, accumulator-reversed: maximal runs of
non-whitespace characters, no empty words. -/
def splitWsAux : List Char → List Char → List (List Char)
  | [], acc => if acc = [] then [] else [acc.reverse]
  | c :: rest, acc =>
    if c.isWhitespace then
      if acc = [] then splitWsAux rest []
      else acc.reverse :: splitWsAux rest []
    else
      splitWsAux rest (c :: acc)

/-- `text.split_whitespace()` (src/display.rs line 128). -/
def splitWs (s : List Char) : List (List Char) := splitWsAux s []

/-- The word loop of `BvgDisplay::smart_wrap` (src/display.rs lines
132-174), including the post-loop flush of `current_line` and the padding
loop.  An early `break` (the flushed line list has reached `maxLines`)
returns the flushed lines directly, exactly as the source does (the
post-loop push is guarded by `lines.len() < max_lines`, and the padding
loop runs zero times). -/
def smartWrapLoop (maxWidth maxLines : Nat) :
    List (List Char) → List (List Char) → List Char → List (List Char)
  | [], lines, current =>
    let lines2 := if current ≠ [] ∧ lines.length < maxLines then lines ++ [current] else lines
    lines2 ++ List.replicate (maxLines - lines2.length) []
  | w :: ws, lines, current =>
    let testLen := if current = [] then byteLen w else byteLen current + 1 + byteLen w
    if testLen ≤ maxWidth then
      smartWrapLoop maxWidth maxLines ws lines
        (if current = [] then w else current ++ ' ' :: w)
    else
      let lines2 := if current = [] then lines else lines ++ [current]
      if maxLines ≤ lines2.length then lines2
      else
        smartWrapLoop maxWidth maxLines ws lines2
          (if maxWidth < byteLen w then w.take maxWidth else w)

/-- `BvgDisplay::smart_wrap` (src/display.rs lines 127-175). -/
def smartWrap (text : List Char) (maxWidth maxLines : Nat) : List (List Char) :=
  smartWrapLoop maxWidth maxLines (splitWs text) [] []

/-- `BvgDisplay::next_departure` (src/display.rs lines 118-120):
`(current_index + 1) % total`; `none` models the remainder-by-zero panic
when `total = 0`. -/
def nextDeparture (currentIndex total : Nat) : Option Nat :=
  if total = 0 then none else some ((currentIndex + 1) % total)

/-- The departure picked by `BvgDisplay::render_departures`
(src/display.rs line 84): `departures.get(self.current_index)`; when this
is `none`, nothing is drawn and the frame stays blank. -/
def renderedDeparture (departures : List Departure) (currentIndex : Nat) :
    Option Departure :=
  departures[currentIndex]?

/-- The mutable loop state of `main` (src/main.rs lines 149-175), with the
display's `current_index` folded in; timestamps are abstract integers. -/
structure RotationState where
  departures : List Departure
  currentIndex : Nat
  lastFetch : Int
  lastRotate : Int
  needsRender : Bool
deriving DecidableEq, Repr

/-- The refresh transition (src/main.rs lines 183-226) given the outcome of
`fetch_warschauer_str`: a non-empty success replaces the list with the
first three entries and requests a render; an empty success and a failure
leave the list alone; `last_fetch` is updated in every case. -/
def refreshStep (s : RotationState) (result : Except Unit (List Departure))
    (now : Int) : RotationState :=
  match result with
  | .ok newDeps =>
    if newDeps = [] then { s with lastFetch := now }
    else { s with departures := newDeps.take 3, needsRender := true, lastFetch := now }
  | .error _ => { s with lastFetch := now }

/-- The rotate transition (src/main.rs lines 229-246): when more than one
departure is held, advance the index via `next_departure` and request a
render; `last_rotate` is updated in every case.  `none` models a panic
inside `next_departure`. -/
def rotateStep (s : RotationState) (now : Int) : Option RotationState :=
  if 1 < s.departures.length then
    match nextDeparture s.currentIndex s.departures.length with
    | none => none
    | some i => some { s with currentIndex := i, needsRender := true, lastRotate := now }
  else some { s with lastRotate := now }

/-- The render transition (src/main.rs lines 249-252 together with
`render_departures`): fires when `needs_render` is set and the list is
non-empty; yields the departure handed to the formatter and surface
(`none` for a blank frame) and the updated state. -/
def renderStep (s : RotationState) : Option Departure × RotationState :=
  if s.needsRender = true ∧ s.departures ≠ [] then
    (renderedDeparture s.departures s.currentIndex, { s with needsRender := false })
  else (none, s)

/-! ### Concrete departures used in examples -/

/-- A concrete departure, used in concrete instantiations. -/
def dA : Departure := ⟨"U1".toList, "Uhlandstr.".toList, 2⟩

/-- A concrete departure, used in concrete instantiations. -/
def dB : Departure := ⟨"S3".toList, "Erkner".toList, 5⟩

/-- A concrete departure, used in concrete instantiations. -/
def dC : Departure := ⟨"M10".toList, "Turmstr.".toList, 9⟩

/-! ### Helper lemmas -/

/-- A kept entry's minutes come from the guarded branch, so they lie in
`[1, 15]`. -/
theorem processEntry_kept {parse : List Char → Option Int} {now : Int}
    {e : RawEntry} {d : Departure}
    (h : processEntry parse now e = some (some d)) :
    1 ≤ d.minutes ∧ d.minutes ≤ 15 := by
  unfold processEntry at h
  split at h
  · exact absurd h (by simp)
  · split at h
    · exact absurd h (by simp)
    · split at h
      · exact absurd h (by simp)
      · split at h
        · exact absurd h (by simp)
        · split at h
          · exact absurd h (by simp)
          · split at h
            · cases hmap : cleanDestination _ with
              | none => rw [hmap] at h; exact absurd h (by simp)
              | some dst =>
                rw [hmap] at h
                simp only [Option.map_some', Option.some.injEq] at h
                subst h
                refine ⟨by simp; omega, by simp; omega⟩
            · exact absurd h (by simp)

/-- Membership in an insertion. -/
theorem mem_insertByMinutes {a d : Departure} {l : List Departure} :
    a ∈ insertByMinutes d l ↔ a = d ∨ a ∈ l := by
  induction l with
  | nil => simp [insertByMinutes]
  | cons x xs ih =>
    by_cases hx : x.minutes < d.minutes
    · simp only [insertByMinutes, if_pos hx, List.mem_cons, ih]
      tauto
    · simp only [insertByMinutes, if_neg hx, List.mem_cons]

/-- Sorting does not change membership. -/
theorem mem_sortByMinutes {a : Departure} {l : List Departure} :
    a ∈ sortByMinutes l ↔ a ∈ l := by
  induction l with
  | nil => simp [sortByMinutes]
  | cons d rest ih => simp [sortByMinutes, mem_insertByMinutes, ih]

/-- Insertion preserves sortedness by minutes. -/
theorem pairwise_insertByMinutes {d : Departure} {l : List Departure}
    (h : l.Pairwise (fun a b => a.minutes ≤ b.minutes)) :
    (insertByMinutes d l).Pairwise (fun a b => a.minutes ≤ b.minutes) := by
  induction l with
  | nil => simp [insertByMinutes]
  | cons x xs ih =>
    rcases List.pairwise_cons.mp h with ⟨hx, hxs⟩
    by_cases hlt : x.minutes < d.minutes
    · simp only [insertByMinutes, if_pos hlt]
      refine List.pairwise_cons.mpr ⟨?_, ih hxs⟩
      intro b hb
      rcases mem_insertByMinutes.mp hb with rfl | hbxs
      · exact Nat.le_of_lt hlt
      · exact hx b hbxs
    · simp only [insertByMinutes, if_neg hlt]
      refine List.pairwise_cons.mpr ⟨?_, h⟩
      intro b hb
      rcases List.mem_cons.mp hb with rfl | hbxs
      · omega
      · exact Nat.le_trans (by omega) (hx b hbxs)

/-- The insertion sort sorts ascending by minutes. -/
theorem sortByMinutes_pairwise (l : List Departure) :
    (sortByMinutes l).Pairwise (fun a b => a.minutes ≤ b.minutes) := by
  induction l with
  | nil => simp [sortByMinutes]
  | cons d rest ih => exact pairwise_insertByMinutes ih

/-- Inserting a departure keeps the elements with any fixed minutes value in
place, prepending the new one exactly when it carries that value (the
insertion point lies after every strictly smaller key). -/
theorem filter_insertByMinutes (d : Departure) (l : List Departure) (m : Nat) :
    (insertByMinutes d l).filter (fun x => x.minutes == m) =
      if d.minutes = m then d :: l.filter (fun x => x.minutes == m)
      else l.filter (fun x => x.minutes == m) := by
  induction l with
  | nil =>
    by_cases hd : d.minutes = m <;>
      simp [insertByMinutes, List.filter_cons, beq_iff_eq, hd]
  | cons x xs ih =>
    by_cases hlt : x.minutes < d.minutes
    · have hins : insertByMinutes d (x :: xs) = x :: insertByMinutes d xs := by
        simp [insertByMinutes, hlt]
      by_cases hd : d.minutes = m
      · have hxm : ¬ (x.minutes = m) := by omega
        simp [hins, List.filter_cons, beq_iff_eq, hxm, ih, hd]
      · simp [hins, List.filter_cons, beq_iff_eq, ih, hd]
    · have hins : insertByMinutes d (x :: xs) = d :: x :: xs := by
        simp [insertByMinutes, hlt]
      by_cases hd : d.minutes = m <;>
        simp [hins, List.filter_cons, beq_iff_eq, hd]

/-- Stability: sorting preserves the subsequence of departures having any
fixed minutes value, hence the original provider order among ties. -/
theorem sortByMinutes_filter (l : List Departure) (m : Nat) :
    (sortByMinutes l).filter (fun x => x.minutes == m) =
      l.filter (fun x => x.minutes == m) := by
  induction l with
  | nil => rfl
  | cons d rest ih =>
    by_cases hd : d.minutes = m <;>
      simp [sortByMinutes, filter_insertByMinutes, hd, List.filter_cons, ih]

/-- Every departure surviving the entry loop has minutes in `[1, 15]`. -/
theorem processAll_minutes {parse : List Char → Option Int} {now : Int} :
    ∀ {es : List RawEntry} {l : List Departure},
      processAll parse now es = some l →
      ∀ d ∈ l, 1 ≤ d.minutes ∧ d.minutes ≤ 15 := by
  intro es
  induction es with
  | nil =>
    intro l h d hd
    simp only [processAll, Option.some.injEq] at h
    subst h
    simp at hd
  | cons e rest ih =>
    intro l h d hd
    unfold processAll at h
    cases hpe : processEntry parse now e with
    | none => rw [hpe] at h; cases h
    | some o =>
      rw [hpe] at h
      cases o with
      | none => exact ih h d hd
      | some d0 =>
        cases hrest : processAll parse now rest with
        | none => rw [hrest] at h; cases h
        | some l0 =>
          rw [hrest] at h
          simp only [Option.map_some', Option.some.injEq] at h
          subst h
          rcases List.mem_cons.mp hd with rfl | hdl
          · exact processEntry_kept hpe
          · exact ih hrest d hdl

/-- The wrap loop always produces exactly `maxLines` lines, as long as the
flushed line list has not yet reached `maxLines` on entry. -/
theorem smartWrapLoop_length (maxWidth maxLines : Nat) :
    ∀ (ws lines : List (List Char)) (current : List Char),
      lines.length < maxLines →
      (smartWrapLoop maxWidth maxLines ws lines current).length = maxLines := by
  intro ws
  induction ws with
  | nil =>
    intro lines current h
    simp only [smartWrapLoop]
    split <;> simp <;> omega
  | cons w ws ih =>
    intro lines current h
    by_cases hc : current = []
    · by_cases hfit : byteLen w ≤ maxWidth
      · have he : smartWrapLoop maxWidth maxLines (w :: ws) lines current =
            smartWrapLoop maxWidth maxLines ws lines w := by
          simp [smartWrapLoop, hc, hfit]
        rw [he]
        exact ih _ _ h
      · have he : smartWrapLoop maxWidth maxLines (w :: ws) lines current =
            smartWrapLoop maxWidth maxLines ws lines
              (if maxWidth < byteLen w then w.take maxWidth else w) := by
          simp [smartWrapLoop, hc, hfit, Nat.not_le.mpr h]
        rw [he]
        exact ih _ _ h
    · by_cases hfit : byteLen current + 1 + byteLen w ≤ maxWidth
      · have he : smartWrapLoop maxWidth maxLines (w :: ws) lines current =
            smartWrapLoop maxWidth maxLines ws lines (current ++ ' ' :: w) := by
          simp [smartWrapLoop, hc, hfit]
        rw [he]
        exact ih _ _ h
      · by_cases hbr : maxLines ≤ lines.length + 1
        · have he : smartWrapLoop maxWidth maxLines (w :: ws) lines current =
              lines ++ [current] := by
            simp [smartWrapLoop, hc, hfit, hbr]
          rw [he]
          simp
          omega
        · have he : smartWrapLoop maxWidth maxLines (w :: ws) lines current =
              smartWrapLoop maxWidth maxLines ws (lines ++ [current])
                (if maxWidth < byteLen w then w.take maxWidth else w) := by
            simp [smartWrapLoop, hc, hfit, hbr]
          rw [he]
          exact ih _ _ (by simp; omega)

/-- The wrap loop's output is its flushed lines — all non-empty, since every
push of `current_line` is guarded by a non-emptiness check — followed by
empty-string padding up to `maxLines`. -/
theorem smartWrapLoop_padded (maxWidth maxLines : Nat) :
    ∀ (ws lines : List (List Char)) (current : List Char),
      (∀ l ∈ lines, l ≠ []) → lines.length < maxLines →
      ∃ produced, (∀ l ∈ produced, l ≠ []) ∧ produced.length ≤ maxLines ∧
        smartWrapLoop maxWidth maxLines ws lines current =
          produced ++ List.replicate (maxLines - produced.length) [] := by
  intro ws
  induction ws with
  | nil =>
    intro lines current hne h
    by_cases hc : current ≠ [] ∧ lines.length < maxLines
    · refine ⟨lines ++ [current], ?_, ?_, ?_⟩
      · intro l hl
        rcases List.mem_append.mp hl with hl | hl
        · exact hne l hl
        · rcases List.mem_singleton.mp hl with rfl
          exact hc.1
      · simp
        omega
      · simp only [smartWrapLoop]
        rw [if_pos hc]
    · refine ⟨lines, hne, by omega, ?_⟩
      simp only [smartWrapLoop]
      rw [if_neg hc]
  | cons w ws ih =>
    intro lines current hne h
    by_cases hc : current = []
    · by_cases hfit : byteLen w ≤ maxWidth
      · have he : smartWrapLoop maxWidth maxLines (w :: ws) lines current =
            smartWrapLoop maxWidth maxLines ws lines w := by
          simp [smartWrapLoop, hc, hfit]
        rw [he]
        exact ih _ _ hne h
      · have he : smartWrapLoop maxWidth maxLines (w :: ws) lines current =
            smartWrapLoop maxWidth maxLines ws lines
              (if maxWidth < byteLen w then w.take maxWidth else w) := by
          simp [smartWrapLoop, hc, hfit, Nat.not_le.mpr h]
        rw [he]
        exact ih _ _ hne h
    · have hne2 : ∀ l ∈ lines ++ [current], l ≠ [] := by
        intro l hl
        rcases List.mem_append.mp hl with hl | hl
        · exact hne l hl
        · rcases List.mem_singleton.mp hl with rfl
          exact hc
      by_cases hfit : byteLen current + 1 + byteLen w ≤ maxWidth
      · have he : smartWrapLoop maxWidth maxLines (w :: ws) lines current =
            smartWrapLoop maxWidth maxLines ws lines (current ++ ' ' :: w) := by
          simp [smartWrapLoop, hc, hfit]
        rw [he]
        exact ih _ _ hne h
      · by_cases hbr : maxLines ≤ lines.length + 1
        · have he : smartWrapLoop maxWidth maxLines (w :: ws) lines current =
              lines ++ [current] := by
            simp [smartWrapLoop, hc, hfit, hbr]
          refine ⟨lines ++ [current], hne2, by simp; omega, ?_⟩
          rw [he]
          have hz : maxLines - (lines ++ [current]).length = 0 := by
            simp
            omega
          rw [hz]
          simp
        · have he : smartWrapLoop maxWidth maxLines (w :: ws) lines current =
              smartWrapLoop maxWidth maxLines ws (lines ++ [current])
                (if maxWidth < byteLen w then w.take maxWidth else w) := by
            simp [smartWrapLoop, hc, hfit, hbr]
          rw [he]
          exact ih _ _ hne2 (by simp; omega)

/-! ### The claims -/

/-- C1 (counterexample): after a successful refresh shrinks the list from 3
items to 1 while `current_index` is 2, the next render hands *nothing* to
the formatter (blank frame), not `departures[2 mod 1] = departures[0]` as
the claim states. -/
theorem C1_shrink_render_counterexample :
    refreshStep ⟨[dA, dB, dC], 2, 0, 0, false⟩ (.ok [dA]) 20 =
      ⟨[dA], 2, 20, 0, true⟩ ∧
    (renderStep ⟨[dA], 2, 20, 0, true⟩).1 = none ∧
    renderedDeparture [dA] (2 % 1) = some dA ∧
    (none : Option Departure) ≠ some dA := by decide

/-- C1 (amended): the render transition hands `departures.get(current_index)`
to the formatter — no modulo is applied.  This agrees with
`departures[current_index mod length]` exactly when `current_index` is
already in range; when the index is out of range (as after a shrinking
refresh) nothing is drawn, the frame stays blank, and there is no crash;
`needs_render` is cleared either way. -/
theorem C1_render_uses_unreduced_index (s : RotationState)
    (hr : s.needsRender = true) (hne : s.departures ≠ []) :
    (renderStep s).1 = s.departures[s.currentIndex]? ∧
    (renderStep s).2.needsRender = false ∧
    (s.currentIndex < s.departures.length →
      (renderStep s).1 = s.departures[s.currentIndex % s.departures.length]?) ∧
    (s.departures.length ≤ s.currentIndex → (renderStep s).1 = none) := by
  have hif : s.needsRender = true ∧ s.departures ≠ [] := ⟨hr, hne⟩
  unfold renderStep renderedDeparture
  rw [if_pos hif]
  refine ⟨rfl, rfl, ?_, ?_⟩
  · intro hlt
    rw [Nat.mod_eq_of_lt hlt]
  · intro hge
    exact List.getElem?_eq_none hge

/-- C1 (witness). -/
theorem C1_render_uses_unreduced_index_witness :
    (renderStep ⟨[dA], 0, 0, 0, true⟩).1 = some dA := by
  have h := C1_render_uses_unreduced_index ⟨[dA], 0, 0, 0, true⟩ rfl (by decide)
  simpa using h.1

/-- C2 (code bug): the pipeline is *not* total — an entry whose destination
ends in a ring-direction glyph makes `clean_destination` panic
(`String::truncate` removes 2 bytes from the 4-byte suffix `" ⟲"`, landing
inside the 3-byte glyph), and the whole fetch aborts (`none`). -/
theorem C2_pipeline_panics_on_ring_glyph :
    fetchProcess (fun _ => some 300) 0
      [⟨"S3".toList, some "Ringbahn S42 ⟲".toList, some "t".toList, none⟩] =
      none := by decide

/-- C3 (counterexample): a successful refresh whose result is the *empty*
list does not replace `departures` and does not set `needs_render`; only
`last_fetch` is updated. -/
theorem C3_empty_success_counterexample :
    (refreshStep ⟨[dA], 0, 0, 0, false⟩ (.ok []) 20).departures = [dA] ∧
    (refreshStep ⟨[dA], 0, 0, 0, false⟩ (.ok []) 20).needsRender = false ∧
    (refreshStep ⟨[dA], 0, 0, 0, false⟩ (.ok []) 20).lastFetch = 20 := by
  decide

/-- C3 (amended): a successful refresh with a non-empty result replaces the
held list wholesale with the top 3, sets `needs_render` and updates
`last_fetch`; a successful refresh with an empty result leaves
`departures`, `current_index` and `needs_render` unchanged and still
updates `last_fetch`. -/
theorem C3_refresh_success (s : RotationState) (newDeps : List Departure)
    (now : Int) :
    (newDeps ≠ [] →
      refreshStep s (.ok newDeps) now =
        { s with departures := newDeps.take 3, needsRender := true,
                 lastFetch := now }) ∧
    (newDeps = [] →
      refreshStep s (.ok newDeps) now = { s with lastFetch := now }) := by
  constructor
  · intro hne
    simp only [refreshStep]
    rw [if_neg hne]
  · intro he
    simp only [refreshStep]
    rw [if_pos he]

/-- C3 (witness): both branches at concrete states. -/
theorem C3_refresh_success_witness :
    refreshStep ⟨[], 0, 0, 0, false⟩ (.ok [dA]) 20 = ⟨[dA], 0, 20, 0, true⟩ ∧
    refreshStep ⟨[dA], 0, 0, 0, false⟩ (.ok []) 20 = ⟨[dA], 0, 20, 0, false⟩ := by
  constructor
  · exact ((C3_refresh_success ⟨[], 0, 0, 0, false⟩ [dA] 20).1
      (by decide)).trans (by decide)
  · exact ((C3_refresh_success ⟨[dA], 0, 0, 0, false⟩ [] 20).2 rfl).trans
      (by decide)

/-- C4 (code bug): destination cleanup on `"Ringbahn S42 ⟲"` panics instead
of returning `"Ringbahn S42"`: the glyph suffix `" ⟲"` is 4 UTF-8 bytes but
the code truncates only the last 2, which is not a character boundary. -/
theorem C4_clean_destination_panics :
    cleanDestination "Ringbahn S42 ⟲".toList = none ∧
    cleanDestination "Ringbahn S42 ⟲".toList ≠ some "Ringbahn S42".toList := by
  decide

/-- C5: a failed refresh leaves `departures` and `current_index` exactly
unchanged and leaves `needs_render` as it was (it is not set). -/
theorem C5_failed_refresh_unchanged (s : RotationState) (now : Int) :
    (refreshStep s (.error ()) now).departures = s.departures ∧
    (refreshStep s (.error ()) now).currentIndex = s.currentIndex ∧
    (refreshStep s (.error ()) now).needsRender = s.needsRender :=
  ⟨rfl, rfl, rfl⟩

/-- C6: every departure produced by the pipeline has `minutes` in
`[1, 15]` — the horizon of the canonical variant — for any timestamp
parser, any `now` and any raw entries. -/
theorem C6_minutes_in_range (parse : List Char → Option Int) (now : Int)
    (entries : List RawEntry) (l : List Departure)
    (h : fetchProcess parse now entries = some l) :
    ∀ d ∈ l, 1 ≤ d.minutes ∧ d.minutes ≤ 15 := by
  intro d hd
  unfold fetchProcess at h
  cases hall : processAll parse now entries with
  | none => rw [hall] at h; cases h
  | some l0 =>
    rw [hall] at h
    simp only [Option.map_some', Option.some.injEq] at h
    subst h
    exact processAll_minutes hall d (mem_sortByMinutes.mp hd)

/-- C6 (witness): a concrete run keeping one departure 120 seconds out. -/
theorem C6_minutes_in_range_witness :
    1 ≤ (Departure.mk "U1".toList "Erkner".toList 2).minutes ∧
      (Departure.mk "U1".toList "Erkner".toList 2).minutes ≤ 15 :=
  C6_minutes_in_range (fun _ => some 120) 0
    [⟨"U1".toList, some "Erkner".toList, some "t".toList, none⟩]
    [⟨"U1".toList, "Erkner".toList, 2⟩] (by decide) _ (by decide)

/-- C7: the pipeline's output list is sorted ascending by `minutes`
(`Pairwise`), ties keep the original provider order (for every minutes
value, the subsequence carrying it is untouched by the sort — stability),
`fetchProcess` is exactly the entry loop followed by this sort, and the
example `[10, 2, 5]` sorts to `[2, 5, 10]`. -/
theorem C7_pipeline_sorted_stable (l0 : List Departure) :
    (sortByMinutes l0).Pairwise (fun a b => a.minutes ≤ b.minutes) ∧
    (∀ m : Nat, (sortByMinutes l0).filter (fun d => d.minutes == m) =
      l0.filter (fun d => d.minutes == m)) ∧
    (∀ parse now entries, fetchProcess parse now entries =
      (processAll parse now entries).map sortByMinutes) ∧
    (sortByMinutes [⟨"A".toList, [], 10⟩, ⟨"B".toList, [], 2⟩,
      ⟨"C".toList, [], 5⟩]).map (fun d => d.minutes) = [2, 5, 10] :=
  ⟨sortByMinutes_pairwise l0, sortByMinutes_filter l0, fun _ _ _ => rfl,
    by decide⟩

/-- C8: an entry whose line code starts with RE, RB, IC, EC, EN, FEX or
ICE, equals S41 or S42, or consists entirely of digits, is dropped — no
panic and no departure — regardless of its direction, timestamp or timing
validity, and it contributes nothing to the pipeline output. -/
theorem C8_mode_filter_drops (parse : List Char → Option Int) (now : Int)
    (e : RawEntry) (rest : List RawEntry)
    (h : lineFiltered e.lineName = true) :
    processEntry parse now e = some none ∧
    fetchProcess parse now (e :: rest) = fetchProcess parse now rest := by
  have hpe : processEntry parse now e = some none := by
    rcases e with ⟨ln, dir, w, dl⟩
    rcases dir with _ | dir
    · rfl
    · simp only [processEntry]
      split
      · rfl
      · rcases w with _ | w
        · rfl
        · simp only at h
          simp [h]
  refine ⟨hpe, ?_⟩
  unfold fetchProcess
  have : processAll parse now (e :: rest) = processAll parse now rest := by
    simp only [processAll, hpe]
  rw [this]

/-- C8 (witness): a regional-express entry with valid direction and timing
is dropped and leaves the output unchanged. -/
theorem C8_mode_filter_drops_witness :
    processEntry (fun _ => some 300) 0
      ⟨"RE1".toList, some "Erkner".toList, some "t".toList, none⟩ =
      some none :=
  (C8_mode_filter_drops (fun _ => some 300) 0
    ⟨"RE1".toList, some "Erkner".toList, some "t".toList, none⟩ []
    (by decide)).1

/-- C9 (counterexample): with `max_lines = 0`, `smart_wrap` can still
return one line, so the result is not always exactly `max_lines` long. -/
theorem C9_zero_lines_counterexample :
    (smartWrap "ab c".toList 2 0).length = 1 ∧ (1 : Nat) ≠ 0 := by decide

/-- C9 (amended): for every text and width, and every `max_lines ≥ 1`,
`smart_wrap` returns exactly `max_lines` strings — its non-empty wrapped
lines followed by empty-string padding when fewer lines were needed; for
`wrap("U3 Krumme Lanke", 16, 2)` the result is exactly the two strings
`"U3 Krumme Lanke"` and `""` (so exactly 2 strings, neither exceeding 16
characters, the second possibly empty — here empty).  For `max_lines = 0`
the count can differ. -/
theorem C9_wrap_line_count (text : List Char) (maxWidth maxLines : Nat)
    (h : 1 ≤ maxLines) :
    (smartWrap text maxWidth maxLines).length = maxLines ∧
    (∃ produced, (∀ l ∈ produced, l ≠ []) ∧ produced.length ≤ maxLines ∧
      smartWrap text maxWidth maxLines =
        produced ++ List.replicate (maxLines - produced.length) []) ∧
    smartWrap "U3 Krumme Lanke".toList 16 2 =
      ["U3 Krumme Lanke".toList, []] ∧
    (∀ l ∈ smartWrap "U3 Krumme Lanke".toList 16 2, l.length ≤ 16) := by
  refine ⟨?_, ?_, by decide, by decide⟩
  · exact smartWrapLoop_length maxWidth maxLines _ [] [] (by simpa using h)
  · exact smartWrapLoop_padded maxWidth maxLines _ [] []
      (by simp) (by simpa using h)

/-- C9 (witness). -/
theorem C9_wrap_line_count_witness :
    (smartWrap "abc".toList 5 1).length = 1 ∧
    smartWrap "U3 Krumme Lanke".toList 16 2 =
      ["U3 Krumme Lanke".toList, []] := by
  have h := C9_wrap_line_count "abc".toList 5 1 (by decide)
  exact ⟨h.1, h.2.2.1⟩

/-- C10: `next_departure` computes `(current_index + 1) % total` and
panics via remainder-by-zero when `total = 0`; under the scheduler loop's
guard `departures.length > 1` the rotate transition never hits that
branch and always leaves the index strictly below the list length. -/
theorem C10_next_departure_mod (i : Nat) (s : RotationState) (now : Int) :
    nextDeparture i 0 = none ∧
    (0 < s.departures.length →
      nextDeparture s.currentIndex s.departures.length =
        some ((s.currentIndex + 1) % s.departures.length)) ∧
    (1 < s.departures.length →
      ∃ s2, rotateStep s now = some s2 ∧
        s2.currentIndex = (s.currentIndex + 1) % s.departures.length ∧
        s2.currentIndex < s.departures.length) := by
  refine ⟨rfl, ?_, ?_⟩
  · intro hpos
    unfold nextDeparture
    rw [if_neg (by omega)]
  · intro hgt
    unfold rotateStep nextDeparture
    rw [if_pos hgt, if_neg (by omega : ¬ s.departures.length = 0)]
    exact ⟨_, rfl, rfl, Nat.mod_lt _ (by omega)⟩

/-- C10 (witness). -/
theorem C10_next_departure_mod_witness :
    nextDeparture 5 0 = none ∧
    nextDeparture 0 2 = some 1 ∧
    ∃ s2, rotateStep ⟨[dA, dB], 0, 0, 0, false⟩ 7 = some s2 ∧
      s2.currentIndex = 1 ∧ s2.currentIndex < 2 := by
  have h := C10_next_departure_mod 5 ⟨[dA, dB], 0, 0, 0, false⟩ 7
  refine ⟨h.1, by simpa using h.2.1 (by decide), ?_⟩
  simpa using h.2.2 (by decide)

end RustyBvg
